import Mathlib

/-!
Verification of the arithmetic and string-processing core of
`src/meteora_probe.ts` (a DLMM round-trip cost probe).  JavaScript numbers
are modelled as exact rationals, JavaScript strings as `List Char`, and the
relevant JS string primitives (`Number(...)`, `toFixed`, `padStart`,
`slice`, `split`, `replace`, BN decimal parsing/printing) are embedded as
executable Lean functions over character lists.
-/

set_option allowUnsafeReducibility true

attribute [local semireducible] Rat.add Rat.mul Rat.inv Rat.sub Rat.ofScientific

/-- Character is an ASCII decimal digit (used by the JavaScript numeric
string routines modelled below). -/
def isDigitChar (c : Char) : Bool := 48 ≤ c.toNat && c.toNat ≤ 57

/-- Numeric value of an ASCII digit character. -/
def digitVal (c : Char) : ℕ := c.toNat - 48

/-- ASCII digit character of a value below ten. -/
def digitChar (n : ℕ) : Char := Char.ofNat (48 + n)

/-- Decimal value of a digit string, most significant digit first; this is
the core of both JS `Number(...)` and BN decimal parsing. -/
def natOfChars (l : List Char) : ℕ := l.foldl (fun a c => 10 * a + digitVal c) 0

/-- Decimal digit string of a natural number (fuel-based embedding of the
repeated divide-by-ten digit production; fuel `n` always suffices). -/
def natDigitsAux : ℕ → ℕ → List Char
  | 0, _ => []
  | fuel + 1, n => if n = 0 then [] else natDigitsAux fuel (n / 10) ++ [digitChar (n % 10)]

/-- Decimal string of a natural number, `"0"` for zero (JS `toString` on a
nonnegative integer, and BN `toString` on a nonnegative BN). -/
def natChars (n : ℕ) : List Char := if n = 0 then ['0'] else natDigitsAux n n

/-- Decimal string of an integer with a leading minus sign when negative
(BN `toString`). -/
def intChars (z : ℤ) : List Char :=
  if z < 0 then '-' :: natChars z.natAbs else natChars z.natAbs

/-- Character is JavaScript whitespace (the fragment relevant here). -/
def isWsChar (c : Char) : Bool := c = ' ' || c = '\t' || c = '\n' || c = '\r'

/-- JS `String.prototype.trim` on a character list. -/
def trimChars (l : List Char) : List Char :=
  ((l.dropWhile isWsChar).reverse.dropWhile isWsChar).reverse

/-- Decimal fragment of the JS `Number(...)` string grammar (after sign
stripping): digits, optionally followed by a dot and more digits, with at
least one digit present.  Exponent forms are outside the fragment this
program exercises and parse as NaN (`none`). -/
def parseUnsigned (l : List Char) : Option ℚ :=
  match l.dropWhile isDigitChar with
  | [] =>
      if l.takeWhile isDigitChar = [] then none
      else some ((natOfChars (l.takeWhile isDigitChar) : ℚ))
  | c :: fp =>
      if c = '.' && fp.all isDigitChar &&
          (!(l.takeWhile isDigitChar).isEmpty || !fp.isEmpty) then
        some ((natOfChars (l.takeWhile isDigitChar) : ℚ) +
          (natOfChars fp : ℚ) / 10 ^ fp.length)
      else none

/-- JS `Number(String)` on a character list, `none` standing for NaN:
trims whitespace, maps the empty string to `0`, strips an optional sign and
parses the decimal body. -/
def jsNumChars (l : List Char) : Option ℚ :=
  match trimChars l with
  | [] => some 0
  | c :: rest =>
      if c = '-' then (parseUnsigned rest).map (fun q => -q)
      else if c = '+' then parseUnsigned rest
      else parseUnsigned (c :: rest)

/-- Rounding used by ES `Number.prototype.toFixed` on the sign-stripped
magnitude: the integer n minimising the distance of `n / 10^f` to the
value, ties picking the larger n (round half up). -/
def roundHalfUp (q : ℚ) : ℤ := ⌊q + 1 / 2⌋

/-- JS `String.prototype.padStart(target, "0")`. -/
def padLeft (l : List Char) (target : ℕ) : List Char :=
  List.replicate (target - l.length) '0' ++ l

/-- Outcome of ES `Number.prototype.toFixed(f)`.  `fixed` carries the
ordinary fixed-notation string.  `rangeError` is the RangeError thrown when
`f` lies outside 0..100 (spec step 2).  `exponential` is the fallback
"if x ≥ 10^21, return ToString(x)" (spec step 10): that string is in
exponential notation (e.g. `"1e+21"`), so the only property the program
can observe downstream is that it contains the marker `e`, on which the
subsequent `new BN` constructor throws; the constructor records the branch
without fabricating the rendered digits. -/
inductive ToFixedResult where
  | fixed : List Char → ToFixedResult
  | exponential : ToFixedResult
  | rangeError : ToFixedResult

/-- ES `Number.prototype.toFixed(f)` for finite rationals: a RangeError
for `f > 100`, the exponential `ToString` fallback for magnitudes at or
above `10^21`, and otherwise sign followed by the rounded magnitude digits
with a decimal point inserted `f` places from the end (padding with zeros
as the spec prescribes). -/
def toFixedChars (x : ℚ) (f : ℕ) : ToFixedResult :=
  if 100 < f then ToFixedResult.rangeError
  else if 10 ^ 21 ≤ |x| then ToFixedResult.exponential
  else
    let sign : List Char := if x < 0 then ['-'] else []
    let m := natChars (roundHalfUp (|x| * 10 ^ f)).toNat
    if f = 0 then ToFixedResult.fixed (sign ++ m)
    else
      let m2 := padLeft m (f + 1)
      ToFixedResult.fixed (sign ++ (m2.take (m2.length - f) ++ '.' :: m2.drop (m2.length - f)))

/-- JS `String.prototype.replace(".", "")`: removes the first occurrence of
the dot. -/
def removeFirstDot : List Char → List Char
  | [] => []
  | c :: rest => if c = '.' then rest else c :: removeFirstDot rest

/-- Decimal fragment of `new BN(String)`: optional minus sign followed by
at least one digit; anything else is a construction failure (`none`). -/
def bnOfChars (l : List Char) : Option ℤ :=
  match l with
  | [] => none
  | c :: rest =>
      if c = '-' then
        if rest ≠ [] ∧ rest.all isDigitChar then some (-(natOfChars rest : ℤ)) else none
      else if (c :: rest).all isDigitChar then some ((natOfChars (c :: rest) : ℤ))
      else none

/-- `toAtomicBN` from the source:
`new BN(amount.toFixed(decimals).replace(".", ""))`.  `none` = the call
throws: either `toFixed` itself throws a RangeError (`decimals > 100`), or
for magnitudes at or above `10^21` `toFixed` returns the exponential
`ToString` rendering, whose `e` marker survives `replace(".", "")` and
makes the `BN` constructor throw, or the recomposed digit string is not a
valid BN literal. -/
def toAtomicBN (amount : ℚ) (decimals : ℕ) : Option ℤ :=
  match toFixedChars amount decimals with
  | ToFixedResult.rangeError => none
  | ToFixedResult.exponential => none
  | ToFixedResult.fixed s => bnOfChars (removeFirstDot s)

/-- `fromAtomicToNumber` from the source: stringify the integer, pad to
`decimals + 1` characters with leading zeros, split off the last `decimals`
characters as the fraction, and re-read `"int.frac"` with `Number`
(`none` = the composed string read back as NaN). -/
def fromAtomicToNumber (x : ℤ) (decimals : ℕ) : Option ℚ :=
  let s := intChars x
  if decimals = 0 then jsNumChars s
  else
    let pad := padLeft s (decimals + 1)
    let ipart := pad.take (pad.length - decimals)
    let fpart := pad.drop (pad.length - decimals)
    jsNumChars (ipart ++ '.' :: fpart)

/-- Composition the spec's round-trip property is about. -/
def atomicRoundTrip (x : ℚ) (d : ℕ) : Option ℚ :=
  (toAtomicBN x d).bind (fun n => fromAtomicToNumber n d)

/-- The value of `x` rounded (half up) to `d` decimal places. -/
def roundToDecimals (x : ℚ) (d : ℕ) : ℚ :=
  (roundHalfUp (x * 10 ^ d) : ℚ) / 10 ^ d

/-- JS `String.prototype.split(sep)` for a single-character separator. -/
def splitCharList (sep : Char) : List Char → List (List Char)
  | [] => [[]]
  | c :: rest =>
      match splitCharList sep rest with
      | [] => [[c]]
      | g :: gs => if c = sep then [] :: g :: gs else (c :: g) :: gs

/-- JS `Array.prototype.join(sep)` for a single-character separator. -/
def joinSep (sep : Char) : List (List Char) → List Char
  | [] => []
  | [x] => x
  | x :: y :: xs => x ++ sep :: joinSep sep (y :: xs)

/-- Error message thrown for a malformed `a:b:s` range. -/
def badSizesMsg : String := "Bad --sizes A:B:S"

/-- Error message thrown for an unsupported single size value (the source
interpolates the offending input; we keep the fixed prefix). -/
def unsupportedSizesMsg : String := "Unsupported --sizes format"

/-- The range loop `for (let v = a; v <= b; v += s) out.push(v)` of
`parseSizes`, with fuel; the caller passes fuel equal to the loop's exact
iteration count `⌊(b - a) / s⌋ + 1` (valid because the guard has already
ensured `s > 0` and `a ≤ b`). -/
def rangeLoop : ℕ → ℚ → ℚ → ℚ → List ℚ
  | 0, _, _, _ => []
  | fuel + 1, v, b, s => if v ≤ b then v :: rangeLoop fuel (v + s) b s else []

/-- Range branch of `parseSizes` after `Number` conversion of the three
split components (`none` = the component was NaN, e.g. a missing part or
unparsable text): throws unless all three are finite, `s > 0` and `a ≤ b`. -/
def parseRangeNums (a b s : Option ℚ) : Except String (List ℚ) :=
  match a, b, s with
  | some a, some b, some s =>
      if s ≤ 0 ∨ b < a then Except.error badSizesMsg
      else Except.ok (rangeLoop (((b - a) / s).floor.toNat + 1) a b s)
  | _, _, _ => Except.error badSizesMsg

/-- `Number(parts[i])`, with a missing part behaving as `Number(undefined) = NaN`. -/
def partChars (parts : List (List Char)) (i : ℕ) : Option ℚ :=
  match parts[i]? with
  | some t => jsNumChars t
  | none => none

/-- `parseSizes` from the source: a `:`-range is parsed strictly (throwing
on malformed input); a `,`-list keeps only the finite positive entries
(silently dropping the rest); a single value throws unless finite and
positive. -/
def parseSizes (sizesArg : String) : Except String (List ℚ) :=
  let l := sizesArg.data
  if l.contains ':' then
    let parts := splitCharList ':' l
    parseRangeNums (partChars parts 0) (partChars parts 1) (partChars parts 2)
  else if l.contains ',' then
    Except.ok ((splitCharList ',' l).filterMap (fun t =>
      match jsNumChars (trimChars t) with
      | some q => if 0 < q then some q else none
      | none => none))
  else
    match jsNumChars (trimChars l) with
    | some q => if 0 < q then Except.ok [q] else Except.error unsupportedSizesMsg
    | none => Except.error unsupportedSizesMsg

/-- `toBps` from the source: `x * 1e4`. -/
def toBps (x : ℚ) : ℚ := x * 10000

/-- The per-size quantities computed inside the main loop. -/
structure SizeResult where
  quoteIn : ℚ
  buyPx : ℚ
  sellPx : ℚ
  impact_bps : ℚ
  rt_bps : ℚ
deriving DecidableEq

/-- Arithmetic of one iteration of the main loop (source lines 259-273):
`quoteIn = usd / refPriceUSDperQuote`, `buyPx = usd / buyOutBase` with
`buyOutBase` the base amount returned by the exact-in quote,
`sellPx = usd / sellInBase` with `sellInBase` the base amount supplied to
the exact-out quote, `impact_bps = toBps((buyPx - sellPx) / mid)` and
`rt_bps = impact_bps + fee_bps_total`.  The two quote amounts are
external-SDK outputs and enter as parameters. -/
def processSize (usd refPriceUSDperQuote midUSDperBase feeBpsTotal buyOutBase sellInBase : ℚ) :
    SizeResult :=
  ⟨usd / refPriceUSDperQuote,
    usd / buyOutBase,
    usd / sellInBase,
    toBps ((usd / buyOutBase - usd / sellInBase) / midUSDperBase),
    toBps ((usd / buyOutBase - usd / sellInBase) / midUSDperBase) + feeBpsTotal⟩

/-- `fetchSolUsd` from the source.  The external fetch is an input:
`Except.error` is any thrown failure (connection, pool load, .getActiveBin),
`Except.ok none` a non-finite mid (NaN), `Except.ok (some mid)` a finite
mid.  A non-positive or non-finite mid throws inside the `try`, so every
failure path lands in the `catch` returning the hardcoded 195.0. -/
def fetchSolUsd (fetched : Except String (Option ℚ)) : ℚ :=
  match fetched with
  | Except.error _ => 195
  | Except.ok none => 195
  | Except.ok (some mid) => if mid ≤ 0 then 195 else mid

/-- USDC mint address constant from the source. -/
def USDC_MINT : String := "EPjFWdd5AufqSSqeM2qN1xzybapC8G4wEGGkZwyTDt1v"

/-- SOL mint address constant from the source. -/
def SOL_MINT : String := "So11111111111111111111111111111111111111112"

/-- cbBTC mint address constant from the source. -/
def CBTC_MINT : String := "cbbtcf3aa214zXHbiAZQwf4122FBYbraNdFqgw4iMij"

/-- The `refPriceUSDperQuote` / `midUSDperBase` selection (source lines
196-209): USDC quote uses 1.0, SOL quote uses the fetched SOL/USD price,
and any other quote mint falls into the final `else`, also using 1.0. -/
def refAndMid (quoteMint : String) (solUsd adjustedMid : ℚ) : ℚ × ℚ :=
  if quoteMint = USDC_MINT then (1, adjustedMid)
  else if quoteMint = SOL_MINT then (solUsd, solUsd * adjustedMid)
  else (1, adjustedMid)

/-- `PINNED_POOL_PER_LEG_BPS` lookup table from the source (per-leg fee in
bps per pool address); `none` for a pool that is not in the table. -/
def PINNED_POOL_PER_LEG_BPS (pool : String) : Option ℚ :=
  if pool = "HTvjzsfX3yU6BUodCjZ5vZkUrAxMDTrBs3CJaq43ashR" then some 1
  else if pool = "5rCf1DM8LjKTw4YqhnoLcngyZYeNnQqztScTogYHAS6" then some 4
  else if pool = "BVRbyLjjfSBcoyiYFuxbgKYnWuiFaF9CSXEa5vdSZ9Hh" then some 20
  else if pool = "BGm1tav58oGcsQJehL9WXBFXF7D27vZsKefj4xJKD5Y" then some 10
  else if pool = "HbjYfcWZBjCBYTJpZkLGxqArVmZVu3mQcRudb6Wg1sVh" then some 20
  else if pool = "J2Gsg3xTDjM8UZjKdEqzBeDwitHb2Ux6TSBX5RzsE42r" then some 20
  else if pool = "4kdxjt8pKEW4qV4ji4HANixwswDJw3Egn8L4x2BEWQqT" then some (301237 / 100000)
  else if pool = "7ubS3GccjhQY99AYNKXjNJqnXjaokEdfdV915xnCb96r" then some (4005 / 1000)
  else if pool = "9d9mb8kooFfaD3SctgZtkxQypkshx6ezhbKio89ixyy2" then some 10
  else if pool = "C8Gr6AUuq9hEdSYJzoEpNcdjpojPZwqG5MtQbeouNNwg" then some 15
  else none

/-- `basePerLegBps` from the source: table entry, defaulting to 0. -/
def basePerLegBps (pool : String) : ℚ := (PINNED_POOL_PER_LEG_BPS pool).getD 0

/-- `dynPerLegBps = dynamicFeePct * 100` from the source. -/
def dynPerLegBps (dynamicFeePct : ℚ) : ℚ := dynamicFeePct * 100

/-- `fee_bps_total = 2 * (basePerLegBps + dynPerLegBps)` from the source;
computed once from the pool address and the `--dynamicFeePct` flag only. -/
def fee_bps_total (pool : String) (dynamicFeePct : ℚ) : ℚ :=
  2 * (basePerLegBps pool + dynPerLegBps dynamicFeePct)

/-- `arraysToFetch = Math.max(2, coverage)` from the source. -/
def arraysToFetch (coverage : ℚ) : ℚ := max 2 coverage

/-- The bin-array counts passed to `getBinArrayForSwap` for the buy and the
sell direction: both calls pass `arraysToFetch`. -/
def binArraysRequested (coverage : ℚ) : ℚ × ℚ :=
  (arraysToFetch coverage, arraysToFetch coverage)

/-- The CSV header line written by the source (including its trailing
newline), transcribed piece by piece from the concatenation at source
lines 229-239. -/
def csvHeader : String :=
  "ts_utc,dex,pool,program_id,tick_spacing,fee_ppm,fee_bps,protocol_fee_ppm," ++
  "liquidity_u128,sqrt_price_x64,tick_current," ++
  "mintA,decA,symbolA,mintB,decB,symbolB," ++
  "base_mint,base_decimals,base_symbol," ++
  "quote_mint,quote_decimals,quote_symbol," ++
  "usd_per_quote,mid_usd_per_base,usd_notional," ++
  "buy_px_usd_per_base,sell_px_usd_per_base," ++
  "roundtrip_bps,fee_bps_total,impact_bps_total," ++
  "buy_out_base,sell_in_base,buy_fee_quote,sell_fee_base\n"

/-- Number of comma-separated columns of the CSV header line. -/
def headerFieldCount : ℕ := (splitCharList ',' csvHeader.data).length

/-- One CSV data row before serialisation: the stringified values collected
into the array at source lines 320-356, in source order.  Each field is the
already-rendered string (the source `.toString()`s every non-string value
before joining). -/
structure CsvRow where
  ts_utc : String
  dex : String
  pool : String
  program_id : String
  tick_spacing : String
  fee_ppm : String
  fee_bps : String
  protocol_fee_ppm : String
  liquidity_u128 : String
  sqrt_price_x64 : String
  tick_current : String
  mintA : String
  decA : String
  symbolA : String
  mintB : String
  decB : String
  symbolB : String
  base_mint : String
  base_decimals : String
  base_symbol : String
  quote_mint : String
  quote_decimals : String
  quote_symbol : String
  usd_per_quote : String
  mid_usd_per_base : String
  usd_notional : String
  buy_px_usd_per_base : String
  sell_px_usd_per_base : String
  roundtrip_bps : String
  fee_bps_total_csv : String
  impact_bps_total : String
  buy_out_base : String
  sell_in_base : String
  buy_fee_quote : String
  sell_fee_base : String

/-- The row array of source lines 320-356, in order. -/
def csvRowFields (r : CsvRow) : List String :=
  [r.ts_utc, r.dex, r.pool, r.program_id, r.tick_spacing, r.fee_ppm, r.fee_bps,
    r.protocol_fee_ppm, r.liquidity_u128, r.sqrt_price_x64, r.tick_current,
    r.mintA, r.decA, r.symbolA, r.mintB, r.decB, r.symbolB,
    r.base_mint, r.base_decimals, r.base_symbol,
    r.quote_mint, r.quote_decimals, r.quote_symbol,
    r.usd_per_quote, r.mid_usd_per_base, r.usd_notional,
    r.buy_px_usd_per_base, r.sell_px_usd_per_base,
    r.roundtrip_bps, r.fee_bps_total_csv, r.impact_bps_total,
    r.buy_out_base, r.sell_in_base, r.buy_fee_quote, r.sell_fee_base]

/-- The serialised CSV data row: `fields.join(",") + "\n"`. -/
def csvLineChars (r : CsvRow) : List Char :=
  joinSep ',' ((csvRowFields r).map String.data) ++ ['\n']

/-- The empty string (used where the source writes `""`). -/
def emptyString : String := ""

/-- `needHeader` from the source: the CSV file is absent, or present with
size zero.  The file system state is modelled as `none` (absent) or
`some contents`. -/
def csvNeedHeader (file : Option String) : Bool :=
  match file with
  | none => true
  | some c => c.length == 0

/-- One program run against the CSV file: the stream is opened with append
flags, the header is written first iff `csvNeedHeader`, then the run's data
rows follow.  Returns the file contents after the run. -/
def csvRun (file : Option String) (body : String) : String :=
  (file.getD emptyString) ++ (if csvNeedHeader file then csvHeader else emptyString) ++ body

/-- Number of header writes over a sequence of runs that all append to the
same CSV file, starting from file state `file`. -/
def csvHeaderWrites : Option String → List String → ℕ
  | _, [] => 0
  | f, b :: bs => (if csvNeedHeader f then 1 else 0) + csvHeaderWrites (some (csvRun f b)) bs

/-- Observable outcome of one iteration of the per-size loop: either a
computed row or a caught error logged together with the offending size. -/
inductive LoopEvent where
  | row : ℚ → SizeResult → LoopEvent
  | errorLogged : ℚ → String → LoopEvent
deriving DecidableEq

/-- One iteration of the per-size loop: the whole body is wrapped in
`try/catch`, the catch logging the error with the size and the loop
continuing.  Quoting is the external effect, entering as the oracle
`quoteAt`. -/
def processOneSize (quoteAt : ℚ → Except String SizeResult) (usd : ℚ) : LoopEvent :=
  match quoteAt usd with
  | Except.ok r => LoopEvent.row usd r
  | Except.error e => LoopEvent.errorLogged usd e

/-- The per-size loop over all parsed sizes. -/
def runLoop (quoteAt : ℚ → Except String SizeResult) (sizes : List ℚ) : List LoopEvent :=
  sizes.map (processOneSize quoteAt)

set_option maxRecDepth 16384

instance {ε α : Type} [DecidableEq ε] [DecidableEq α] : DecidableEq (Except ε α) := fun a b =>
  match a, b with
  | Except.ok x, Except.ok y => decidable_of_iff (x = y) (by simp)
  | Except.ok _, Except.error _ => isFalse (fun h => Except.noConfusion h)
  | Except.error _, Except.ok _ => isFalse (fun h => Except.noConfusion h)
  | Except.error e, Except.error f => decidable_of_iff (e = f) (by simp)

/-- Example `--sizes` comma list from the spec. -/
def sizesCommaExample : String := "10,25,50"

/-- Example `--sizes` range from the spec. -/
def sizesRangeExample : String := "10:30:10"

/-- A comma list whose entries are all non-finite under `Number`. -/
def sizesBadCommaExample : String := "x,y"

/-- A comma list with one non-finite entry among finite ones. -/
def sizesDropCommaExample : String := "10,x,50"

/-- A single non-numeric `--sizes` value. -/
def sizesSingleBadExample : String := "abc"

/-- The 1 bp SOL/USDC pool address from the pinned fee table. -/
def POOL_SOL_USDC_1BP : String := "HTvjzsfX3yU6BUodCjZ5vZkUrAxMDTrBs3CJaq43ashR"

/-- Error message used by the loop-isolation witness oracle. -/
def quoteFailMsg : String := "quote failed"

/-- A CSV row with every field empty. -/
def emptyCsvRow : CsvRow :=
  ⟨emptyString, emptyString, emptyString, emptyString, emptyString, emptyString,
    emptyString, emptyString, emptyString, emptyString, emptyString, emptyString,
    emptyString, emptyString, emptyString, emptyString, emptyString, emptyString,
    emptyString, emptyString, emptyString, emptyString, emptyString, emptyString,
    emptyString, emptyString, emptyString, emptyString, emptyString, emptyString,
    emptyString, emptyString, emptyString, emptyString, emptyString⟩

theorem natOfChars_nil : natOfChars [] = 0 := rfl

theorem foldl_digit_init (l : List Char) (a : ℕ) :
    l.foldl (fun x c => 10 * x + digitVal c) a = a * 10 ^ l.length + natOfChars l := by
  induction l generalizing a with
  | nil => simp [natOfChars]
  | cons c t ih =>
      show t.foldl _ (10 * a + digitVal c) = _
      rw [ih]
      have h2 : natOfChars (c :: t) =
          t.foldl (fun x c => 10 * x + digitVal c) (10 * 0 + digitVal c) := rfl
      rw [h2, ih]
      simp only [List.length_cons]
      ring

theorem natOfChars_append (l₁ l₂ : List Char) :
    natOfChars (l₁ ++ l₂) = natOfChars l₁ * 10 ^ l₂.length + natOfChars l₂ := by
  have h : natOfChars (l₁ ++ l₂) =
      l₂.foldl (fun x c => 10 * x + digitVal c) (natOfChars l₁) := by
    simp [natOfChars, List.foldl_append]
  rw [h, foldl_digit_init]

theorem natOfChars_singleton (c : Char) : natOfChars [c] = digitVal c := by
  simp [natOfChars]

theorem natOfChars_replicate_zero (k : ℕ) : natOfChars (List.replicate k '0') = 0 := by
  induction k with
  | zero => rfl
  | succ n ih =>
      have h : List.replicate (n + 1) '0' = List.replicate n '0' ++ ['0'] := by
        rw [List.replicate_succ']
      rw [h, natOfChars_append, ih, natOfChars_singleton]
      rfl

theorem natOfChars_pad (k : ℕ) (l : List Char) :
    natOfChars (List.replicate k '0' ++ l) = natOfChars l := by
  rw [natOfChars_append, natOfChars_replicate_zero]
  simp

theorem digitVal_digitChar (d : ℕ) (h : d < 10) : digitVal (digitChar d) = d := by
  interval_cases d <;> rfl

theorem isDigitChar_digitChar (d : ℕ) (h : d < 10) : isDigitChar (digitChar d) = true := by
  interval_cases d <;> rfl

theorem natDigitsAux_spec :
    ∀ fuel n, n ≤ fuel →
      natOfChars (natDigitsAux fuel n) = n ∧
        ∀ c ∈ natDigitsAux fuel n, isDigitChar c = true := by
  intro fuel
  induction fuel with
  | zero =>
      intro n hn
      have h0 : n = 0 := Nat.le_zero.mp hn
      subst h0
      exact ⟨rfl, by intro c hc; simp [natDigitsAux] at hc⟩
  | succ f ih =>
      intro n hn
      by_cases h0 : n = 0
      · subst h0
        exact ⟨rfl, by intro c hc; simp [natDigitsAux] at hc⟩
      · have hdiv : n / 10 ≤ f := by
          have hlt : n / 10 < n := Nat.div_lt_self (Nat.pos_of_ne_zero h0) (by norm_num)
          omega
        obtain ⟨ihv, ihd⟩ := ih (n / 10) hdiv
        have hmod : n % 10 < 10 := Nat.mod_lt _ (by norm_num)
        constructor
        · simp only [natDigitsAux, if_neg h0]
          rw [natOfChars_append, ihv, natOfChars_singleton, digitVal_digitChar _ hmod]
          simp [Nat.div_add_mod]
          omega
        · intro c hc
          simp only [natDigitsAux, if_neg h0, List.mem_append, List.mem_singleton] at hc
          rcases hc with hc | hc
          · exact ihd c hc
          · subst hc; exact isDigitChar_digitChar _ hmod

theorem natOfChars_natChars (n : ℕ) : natOfChars (natChars n) = n := by
  by_cases h0 : n = 0
  · subst h0; rfl
  · simp only [natChars, if_neg h0]
    exact (natDigitsAux_spec n n le_rfl).1

theorem natChars_digits (n : ℕ) : ∀ c ∈ natChars n, isDigitChar c = true := by
  by_cases h0 : n = 0
  · subst h0
    intro c hc
    simp [natChars] at hc
    subst hc; rfl
  · simp only [natChars, if_neg h0]
    exact (natDigitsAux_spec n n le_rfl).2

theorem natChars_ne_nil (n : ℕ) : natChars n ≠ [] := by
  by_cases h0 : n = 0
  · subst h0; simp [natChars]
  · simp only [natChars, if_neg h0]
    obtain ⟨m, rfl⟩ := Nat.exists_eq_succ_of_ne_zero h0
    simp [natDigitsAux]

theorem dropWhile_eq_self_of_all_false {p : Char → Bool} :
    ∀ l : List Char, (∀ c ∈ l, p c = false) → l.dropWhile p = l := by
  intro l h
  cases l with
  | nil => rfl
  | cons c t =>
      have hc : p c = false := h c (List.mem_cons_self c t)
      simp [List.dropWhile, hc]

theorem trimChars_of_no_ws (l : List Char) (h : ∀ c ∈ l, isWsChar c = false) :
    trimChars l = l := by
  unfold trimChars
  rw [dropWhile_eq_self_of_all_false l h]
  rw [dropWhile_eq_self_of_all_false l.reverse (by intro c hc; exact h c (List.mem_reverse.mp hc))]
  exact List.reverse_reverse l

theorem takeWhile_all {p : Char → Bool} :
    ∀ l : List Char, (∀ c ∈ l, p c = true) → l.takeWhile p = l ∧ l.dropWhile p = [] := by
  intro l h
  induction l with
  | nil => exact ⟨rfl, rfl⟩
  | cons c t ih =>
      have hc : p c = true := h c (List.mem_cons_self c t)
      have ht := ih (by intro x hx; exact h x (List.mem_cons_of_mem c hx))
      constructor
      · simp [List.takeWhile, hc, ht.1]
      · simp [List.dropWhile, hc, ht.2]

theorem span_append_of_break {p : Char → Bool} (a : List Char) (c : Char) (b : List Char)
    (ha : ∀ x ∈ a, p x = true) (hc : p c = false) :
    (a ++ c :: b).takeWhile p = a ∧ (a ++ c :: b).dropWhile p = c :: b := by
  induction a with
  | nil => constructor <;> simp [List.takeWhile, List.dropWhile, hc]
  | cons x t ih =>
      have hx : p x = true := ha x (List.mem_cons_self x t)
      have ht := ih (by intro y hy; exact ha y (List.mem_cons_of_mem x hy))
      constructor
      · simp [List.takeWhile, hx, ht.1]
      · simp [List.dropWhile, hx, ht.2]

theorem isWsChar_of_digit (c : Char) (h : isDigitChar c = true) : isWsChar c = false := by
  cases hw : isWsChar c with
  | false => rfl
  | true =>
      exfalso
      simp only [isWsChar, Bool.or_eq_true, decide_eq_true_eq] at hw
      rcases hw with ((rfl | rfl) | rfl) | rfl <;> simp [isDigitChar] at h

theorem ne_sign_of_digit (c : Char) (h : isDigitChar c = true) :
    c ≠ '-' ∧ c ≠ '+' := by
  simp only [isDigitChar, Bool.and_eq_true, decide_eq_true_eq] at h
  constructor <;> rintro rfl <;> simp at h

theorem parseUnsigned_all_digits (l : List Char)
    (h : ∀ c ∈ l, isDigitChar c = true) (hne : l ≠ []) :
    parseUnsigned l = some ((natOfChars l : ℚ)) := by
  obtain ⟨ht, hd⟩ := takeWhile_all l h
  simp [parseUnsigned, ht, hd, hne]

theorem parseUnsigned_composed (ip fp : List Char)
    (hip : ∀ c ∈ ip, isDigitChar c = true) (hipne : ip ≠ [])
    (hfp : ∀ c ∈ fp, isDigitChar c = true) :
    parseUnsigned (ip ++ '.' :: fp) =
      some ((natOfChars ip : ℚ) + (natOfChars fp : ℚ) / 10 ^ fp.length) := by
  have hdot : isDigitChar '.' = false := rfl
  obtain ⟨ht, hd⟩ := span_append_of_break ip '.' fp hip hdot
  have hall : fp.all isDigitChar = true := List.all_eq_true.mpr hfp
  simp [parseUnsigned, ht, hd, hall, hipne]

theorem not_dot_of_digit (c : Char) (h : isDigitChar c = true) : c ≠ '.' := by
  rintro rfl
  simp [isDigitChar] at h

theorem not_mem_dot_of_digits (l : List Char) (h : ∀ c ∈ l, isDigitChar c = true) :
    '.' ∉ l := by
  intro hm
  exact not_dot_of_digit _ (h _ hm) rfl

theorem removeFirstDot_no_dot : ∀ l : List Char, '.' ∉ l → removeFirstDot l = l := by
  intro l h
  induction l with
  | nil => rfl
  | cons c t ih =>
      have hc : c ≠ '.' := by
        rintro rfl
        exact h (List.mem_cons_self _ _)
      have ht := ih (fun hm => h (List.mem_cons_of_mem c hm))
      simp [removeFirstDot, hc, ht]

theorem removeFirstDot_append (a b : List Char) (ha : '.' ∉ a) :
    removeFirstDot (a ++ '.' :: b) = a ++ b := by
  induction a with
  | nil => simp [removeFirstDot]
  | cons c t ih =>
      have hc : c ≠ '.' := by
        rintro rfl
        exact ha (List.mem_cons_self _ _)
      have ht := ih (fun hm => ha (List.mem_cons_of_mem c hm))
      simp [removeFirstDot, hc, ht]

theorem bnOfChars_all_digits (l : List Char) (h : ∀ c ∈ l, isDigitChar c = true)
    (hne : l ≠ []) : bnOfChars l = some ((natOfChars l : ℤ)) := by
  obtain ⟨c, t, rfl⟩ := List.exists_cons_of_ne_nil hne
  have hc := h c (List.mem_cons_self c t)
  obtain ⟨hm, _⟩ := ne_sign_of_digit c hc
  have hall : (c :: t).all isDigitChar = true := List.all_eq_true.mpr h
  simp [bnOfChars, hm, hall]

theorem jsNumChars_all_digits (l : List Char) (h : ∀ c ∈ l, isDigitChar c = true)
    (hne : l ≠ []) : jsNumChars l = some ((natOfChars l : ℚ)) := by
  have htrim : trimChars l = l :=
    trimChars_of_no_ws l (fun c hc => isWsChar_of_digit c (h c hc))
  obtain ⟨c, t, rfl⟩ := List.exists_cons_of_ne_nil hne
  have hc := h c (List.mem_cons_self c t)
  obtain ⟨hm, hp⟩ := ne_sign_of_digit c hc
  unfold jsNumChars
  rw [htrim]
  dsimp only
  rw [if_neg hm, if_neg hp]
  exact parseUnsigned_all_digits _ h hne

theorem jsNumChars_composed (ip fp : List Char)
    (hip : ∀ c ∈ ip, isDigitChar c = true) (hipne : ip ≠ [])
    (hfp : ∀ c ∈ fp, isDigitChar c = true) :
    jsNumChars (ip ++ '.' :: fp) =
      some ((natOfChars ip : ℚ) + (natOfChars fp : ℚ) / 10 ^ fp.length) := by
  have hnows : ∀ c ∈ ip ++ '.' :: fp, isWsChar c = false := by
    intro c hc
    rcases List.mem_append.mp hc with h | h
    · exact isWsChar_of_digit c (hip c h)
    · rcases List.mem_cons.mp h with rfl | h
      · rfl
      · exact isWsChar_of_digit c (hfp c h)
  have htrim : trimChars (ip ++ '.' :: fp) = ip ++ '.' :: fp :=
    trimChars_of_no_ws _ hnows
  obtain ⟨c, t, rfl⟩ := List.exists_cons_of_ne_nil hipne
  have hc := hip c (List.mem_cons_self c t)
  obtain ⟨hm, hp⟩ := ne_sign_of_digit c hc
  unfold jsNumChars
  rw [htrim, List.cons_append]
  dsimp only
  rw [if_neg hm, if_neg hp, ← List.cons_append]
  exact parseUnsigned_composed _ _ hip hipne hfp

theorem padLeft_digits (n t : ℕ) (c : Char)
    (hc : c ∈ padLeft (natChars n) t) : isDigitChar c = true := by
  unfold padLeft at hc
  rcases List.mem_append.mp hc with h | h
  · have hz := List.eq_of_mem_replicate h
    subst hz
    rfl
  · exact natChars_digits n c h

theorem padLeft_length_ge (l : List Char) (t : ℕ) : t ≤ (padLeft l t).length := by
  unfold padLeft
  rw [List.length_append, List.length_replicate]
  omega

theorem natOfChars_padLeft (l : List Char) (t : ℕ) :
    natOfChars (padLeft l t) = natOfChars l :=
  natOfChars_pad _ _

theorem toAtomicBN_nonneg (x : ℚ) (hx : 0 ≤ x) (hx21 : x < 10 ^ 21) (d : ℕ)
    (hd100 : d ≤ 100) :
    toAtomicBN x d = some (((roundHalfUp (x * 10 ^ d)).toNat : ℤ)) := by
  have hnlt : ¬ x < 0 := not_lt.2 hx
  have habs : |x| = x := abs_of_nonneg hx
  have habs21 : ¬ 10 ^ 21 ≤ |x| := by
    rw [habs]
    exact not_le.2 hx21
  have hnotf : ¬ 100 < d := not_lt.2 hd100
  by_cases hd : d = 0
  · subst hd
    have h1 : toFixedChars x 0 =
        ToFixedResult.fixed (natChars (roundHalfUp (x * 10 ^ 0)).toNat) := by
      simp [toFixedChars, hnlt, habs, habs21, hx21]
    unfold toAtomicBN
    rw [h1]
    dsimp only
    rw [removeFirstDot_no_dot _ (not_mem_dot_of_digits _ (natChars_digits _)),
      bnOfChars_all_digits _ (natChars_digits _) (natChars_ne_nil _),
      natOfChars_natChars]
  · set n := (roundHalfUp (x * 10 ^ d)).toNat with hn
    set P := padLeft (natChars n) (d + 1) with hP
    have h1 : toFixedChars x d =
        ToFixedResult.fixed (P.take (P.length - d) ++ '.' :: P.drop (P.length - d)) := by
      simp [toFixedChars, hnlt, habs, habs21, hx21, hnotf, hd, hP, hn]
    have hPd : ∀ c ∈ P, isDigitChar c = true := by
      intro c hc
      exact padLeft_digits n (d + 1) c (by rw [← hP]; exact hc)
    have htake : ∀ c ∈ P.take (P.length - d), isDigitChar c = true :=
      fun c hc => hPd c (List.mem_of_mem_take hc)
    have hPne : P ≠ [] := by
      have hlen := padLeft_length_ge (natChars n) (d + 1)
      rw [← hP] at hlen
      intro h
      rw [h] at hlen
      simp at hlen
    unfold toAtomicBN
    rw [h1]
    dsimp only
    rw [removeFirstDot_append _ _ (not_mem_dot_of_digits _ htake),
      List.take_append_drop, bnOfChars_all_digits _ hPd hPne, hP,
      natOfChars_padLeft, natOfChars_natChars]

theorem fromAtomicToNumber_natCast (k : ℕ) (d : ℕ) :
    fromAtomicToNumber (k : ℤ) d = some ((k : ℚ) / 10 ^ d) := by
  have hi : intChars (k : ℤ) = natChars k := by
    simp [intChars]
  by_cases hd : d = 0
  · subst hd
    have h1 : fromAtomicToNumber (k : ℤ) 0 = jsNumChars (intChars (k : ℤ)) := by
      simp [fromAtomicToNumber]
    rw [h1, hi, jsNumChars_all_digits _ (natChars_digits _) (natChars_ne_nil _),
      natOfChars_natChars]
    norm_num
  · set P := padLeft (natChars k) (d + 1) with hP
    have h1 : fromAtomicToNumber (k : ℤ) d =
        jsNumChars (P.take (P.length - d) ++ '.' :: P.drop (P.length - d)) := by
      simp [fromAtomicToNumber, hd, hi, hP]
    have hPd : ∀ c ∈ P, isDigitChar c = true := by
      intro c hc
      exact padLeft_digits k (d + 1) c (by rw [← hP]; exact hc)
    have hlen : d + 1 ≤ P.length := by
      have := padLeft_length_ge (natChars k) (d + 1)
      rw [← hP] at this
      exact this
    have htake : ∀ c ∈ P.take (P.length - d), isDigitChar c = true :=
      fun c hc => hPd c (List.mem_of_mem_take hc)
    have hdrop : ∀ c ∈ P.drop (P.length - d), isDigitChar c = true :=
      fun c hc => hPd c (List.mem_of_mem_drop hc)
    have htne : P.take (P.length - d) ≠ [] := by
      intro h
      have hl := congrArg List.length h
      rw [List.length_take] at hl
      simp only [List.length_nil] at hl
      omega
    rw [h1, jsNumChars_composed _ _ htake htne hdrop]
    have hfl : (P.drop (P.length - d)).length = d := by
      rw [List.length_drop]
      omega
    have hNP : natOfChars P = k := by
      rw [hP, natOfChars_padLeft, natOfChars_natChars]
    have hsplit : natOfChars (P.take (P.length - d)) * 10 ^ d +
        natOfChars (P.drop (P.length - d)) = k := by
      have happ := natOfChars_append (P.take (P.length - d)) (P.drop (P.length - d))
      rw [List.take_append_drop, hfl, hNP] at happ
      omega
    rw [hfl]
    congr 1
    have h10 : (10 : ℚ) ^ d ≠ 0 := pow_ne_zero _ (by norm_num)
    field_simp
    exact_mod_cast hsplit

theorem splitCharList_ne_nil (sep : Char) : ∀ l, splitCharList sep l ≠ [] := by
  intro l
  cases l with
  | nil => simp [splitCharList]
  | cons c rest =>
      cases h : splitCharList sep rest with
      | nil => simp [splitCharList, h]
      | cons g gs =>
          simp only [splitCharList, h]
          split <;> simp

theorem splitCharList_sep_cons (sep : Char) (l : List Char) :
    splitCharList sep (sep :: l) = [] :: splitCharList sep l := by
  cases h : splitCharList sep l with
  | nil => exact absurd h (splitCharList_ne_nil sep l)
  | cons g gs => simp [splitCharList, h]

theorem splitCharList_append_no_sep (sep : Char) (x : List Char) (l : List Char)
    (g : List Char) (gs : List (List Char)) (hx : sep ∉ x)
    (h : splitCharList sep l = g :: gs) :
    splitCharList sep (x ++ l) = (x ++ g) :: gs := by
  induction x with
  | nil => simpa using h
  | cons c t ih =>
      have hc : ¬ c = sep := by
        rintro rfl
        exact hx (List.mem_cons_self _ _)
      have ht := ih (fun hm => hx (List.mem_cons_of_mem c hm))
      simp [splitCharList, ht, hc]

theorem splitCharList_no_sep (sep : Char) (l : List Char) (h : sep ∉ l) :
    splitCharList sep l = [l] := by
  have h0 : splitCharList sep ([] : List Char) = [] :: [] := rfl
  have h1 := splitCharList_append_no_sep sep l [] [] [] h h0
  simpa using h1

theorem splitCharList_join_count (sep : Char) :
    ∀ ls : List (List Char), ∀ t : List Char,
      (∀ x ∈ ls, sep ∉ x) → sep ∉ t → ls ≠ [] →
      (splitCharList sep (joinSep sep ls ++ t)).length = ls.length := by
  intro ls
  induction ls with
  | nil => intro t _ _ h; exact absurd rfl h
  | cons x xs ih =>
      intro t hels ht _
      cases xs with
      | nil =>
          have hx : sep ∉ x := hels x (List.mem_cons_self _ _)
          have hxt : sep ∉ x ++ t := by
            intro hm
            rcases List.mem_append.mp hm with h | h
            · exact hx h
            · exact ht h
          have hj : joinSep sep [x] = x := rfl
          rw [hj, splitCharList_no_sep sep (x ++ t) hxt]
          rfl
      | cons y ys =>
          have hx : sep ∉ x := hels x (List.mem_cons_self _ _)
          have hj : joinSep sep (x :: y :: ys) = x ++ sep :: joinSep sep (y :: ys) := rfl
          have hrec := ih t (fun z hz => hels z (List.mem_cons_of_mem x hz)) ht (by simp)
          cases hsplit : splitCharList sep (joinSep sep (y :: ys) ++ t) with
          | nil => exact absurd hsplit (splitCharList_ne_nil sep _)
          | cons g gs =>
              have h1 : splitCharList sep (sep :: (joinSep sep (y :: ys) ++ t)) =
                  [] :: g :: gs := by
                rw [splitCharList_sep_cons, hsplit]
              have h2 := splitCharList_append_no_sep sep x _ _ _ hx h1
              have harr : joinSep sep (x :: y :: ys) ++ t =
                  x ++ sep :: (joinSep sep (y :: ys) ++ t) := by
                rw [hj]
                simp
              rw [harr, h2]
              rw [hsplit] at hrec
              simp only [List.length_cons] at hrec ⊢
              omega

theorem csvRun_need_header_false (f : Option String) (b : String) :
    csvNeedHeader (some (csvRun f b)) = false := by
  have hlen : 0 < (csvRun f b).length := by
    rw [csvRun, String.length_append, String.length_append]
    cases hf : csvNeedHeader f with
    | true =>
        have h1 : 0 < csvHeader.length := by decide
        simp only [hf, if_true]
        omega
    | false =>
        cases f with
        | none => simp [csvNeedHeader] at hf
        | some c =>
            have hc : c.length ≠ 0 := by
              simpa [csvNeedHeader] using hf
            simp only [Option.getD_some]
            omega
  simp [csvNeedHeader]
  omega

theorem csvHeaderWrites_of_no_header (bs : List String) :
    ∀ f, csvNeedHeader f = false → csvHeaderWrites f bs = 0 := by
  induction bs with
  | nil => intro f _; rfl
  | cons b bs2 ih =>
      intro f h
      have h2 := ih (some (csvRun f b)) (csvRun_need_header_false f b)
      simp [csvHeaderWrites, h, h2]

/-- C1: for every trade size processed without error, the loop computes
`quoteIn = usd / refPriceUSDperQuote`, `buyPx = usd / buyOutBase` (base
amount returned by the exact-in quote), `sellPx = usd / sellInBase` (base
amount supplied to the exact-out quote),
`impact_bps = 10000 * (buyPx - sellPx) / midPrice` and
`roundtrip_bps = impact_bps + fee_bps_total`; in particular `impact_bps`
is zero whenever `buyPx = sellPx`. -/
theorem c1_process_size_formulas (usd refP mid fee bo si : ℚ) :
    (processSize usd refP mid fee bo si).quoteIn = usd / refP ∧
    (processSize usd refP mid fee bo si).buyPx = usd / bo ∧
    (processSize usd refP mid fee bo si).sellPx = usd / si ∧
    (processSize usd refP mid fee bo si).impact_bps =
      10000 * ((processSize usd refP mid fee bo si).buyPx -
        (processSize usd refP mid fee bo si).sellPx) / mid ∧
    (processSize usd refP mid fee bo si).rt_bps =
      (processSize usd refP mid fee bo si).impact_bps + fee ∧
    ((processSize usd refP mid fee bo si).buyPx = (processSize usd refP mid fee bo si).sellPx →
      (processSize usd refP mid fee bo si).impact_bps = 0) := by
  refine ⟨rfl, rfl, rfl, ?_, rfl, ?_⟩
  · show toBps ((usd / bo - usd / si) / mid) = 10000 * (usd / bo - usd / si) / mid
    rw [toBps]
    ring
  · intro h
    have h2 : usd / bo = usd / si := h
    show toBps ((usd / bo - usd / si) / mid) = 0
    rw [h2, sub_self, zero_div, toBps, zero_mul]

/-- Witness for C1 at a concrete input with equal buy and sell prices. -/
theorem c1_process_size_formulas_witness :
    (processSize 100 1 10 4 5 5).impact_bps = 0 :=
  (c1_process_size_formulas 100 1 10 4 5 5).2.2.2.2.2 rfl

/-- C2 counterexample: for the cbBTC mint (which is neither USDC nor SOL)
the code sets `refPriceUSDperQuote = 1`, not the fetched SOL/USD price, so
the claim "SOL/USD for every quote mint that is not USDC" fails. -/
theorem c2_ref_price_counterexample :
    (refAndMid CBTC_MINT 195 2).1 = 1 ∧ CBTC_MINT ≠ USDC_MINT ∧
      CBTC_MINT ≠ SOL_MINT ∧ (1 : ℚ) ≠ 195 := by
  refine ⟨by decide, by decide, by decide, by norm_num⟩

/-- C2 amended: `refPriceUSDperQuote` is 1 for the USDC mint, the fetched
SOL/USD price for the SOL mint, and 1 for every other quote mint (the
final `else` of the selection). -/
theorem c2_ref_price_cases (quoteMint : String) (solUsd adjustedMid : ℚ) :
    (quoteMint = USDC_MINT → refAndMid quoteMint solUsd adjustedMid = (1, adjustedMid)) ∧
    (quoteMint ≠ USDC_MINT → quoteMint = SOL_MINT →
      refAndMid quoteMint solUsd adjustedMid = (solUsd, solUsd * adjustedMid)) ∧
    (quoteMint ≠ USDC_MINT → quoteMint ≠ SOL_MINT →
      refAndMid quoteMint solUsd adjustedMid = (1, adjustedMid)) := by
  refine ⟨fun h => by rw [refAndMid, if_pos h], fun h1 h2 => ?_, fun h1 h2 => by
    rw [refAndMid, if_neg h1, if_neg h2]⟩
  subst h2
  rw [refAndMid, if_neg h1, if_pos rfl]

/-- Witness for C2 amended at the SOL mint. -/
theorem c2_ref_price_cases_witness :
    refAndMid SOL_MINT 195 2 = (195, 195 * 2) :=
  (c2_ref_price_cases SOL_MINT 195 2).2.1 (by decide) rfl

/-- C3 counterexample: the comma branch never throws; an input whose
entries are all non-finite under `Number` (so malformed) returns an empty
list successfully instead of raising. -/
theorem c3_parse_sizes_counterexample :
    parseSizes sizesBadCommaExample = Except.ok [] := by decide

/-- C3 amended: the two positive examples hold, and malformed *range*
input (a non-finite component, a step `s ≤ 0`, or `b < a`) raises, as does
a malformed single value; but malformed entries of a comma list are
silently dropped rather than raising. -/
theorem c3_parse_sizes_amended :
    parseSizes sizesCommaExample = Except.ok [10, 25, 50] ∧
    parseSizes sizesRangeExample = Except.ok [10, 20, 30] ∧
    (∀ a b s : ℚ, b < a → parseRangeNums (some a) (some b) (some s) = Except.error badSizesMsg) ∧
    (∀ a b s : ℚ, s ≤ 0 → parseRangeNums (some a) (some b) (some s) = Except.error badSizesMsg) ∧
    (∀ ob os, parseRangeNums none ob os = Except.error badSizesMsg) ∧
    (∀ oa os, parseRangeNums oa none os = Except.error badSizesMsg) ∧
    (∀ oa ob, parseRangeNums oa ob none = Except.error badSizesMsg) ∧
    parseSizes sizesSingleBadExample = Except.error unsupportedSizesMsg ∧
    parseSizes sizesDropCommaExample = Except.ok [10, 50] := by
  refine ⟨by decide, by decide, ?_, ?_, ?_, ?_, ?_, by decide, by decide⟩
  · intro a b s h
    rw [parseRangeNums, if_pos (Or.inr h)]
  · intro a b s h
    rw [parseRangeNums, if_pos (Or.inl h)]
  · intro ob os
    cases ob <;> cases os <;> rfl
  · intro oa os
    cases oa <;> cases os <;> rfl
  · intro oa ob
    cases oa <;> cases ob <;> rfl

/-- Witness for C3 amended at a concrete descending range. -/
theorem c3_parse_sizes_amended_witness :
    parseRangeNums (some 30) (some 10) (some 5) = Except.error badSizesMsg :=
  c3_parse_sizes_amended.2.2.1 30 10 5 (by norm_num)

/-- C4: for a pool with a pinned per-leg fee `f` and any `--dynamicFeePct`,
`fee_bps_total = 2 * (f + dynamicFeePct * 100)`; the definition takes only
the pool address and the flag, so the value is a static configuration
constant independent of any quote result. -/
theorem c4_fee_bps_total_formula (pool : String) (dynamicFeePct f : ℚ)
    (h : PINNED_POOL_PER_LEG_BPS pool = some f) :
    fee_bps_total pool dynamicFeePct = 2 * (f + dynamicFeePct * 100) := by
  rw [fee_bps_total, basePerLegBps, h, Option.getD_some, dynPerLegBps]

/-- Witness for C4 at the pinned 1 bp SOL/USDC pool. -/
theorem c4_fee_bps_total_formula_witness :
    PINNED_POOL_PER_LEG_BPS POOL_SOL_USDC_1BP = some 1 ∧
      fee_bps_total POOL_SOL_USDC_1BP (1 / 2) = 2 * (1 + (1 / 2) * 100) :=
  ⟨by decide, c4_fee_bps_total_formula POOL_SOL_USDC_1BP (1 / 2) 1 (by decide)⟩

/-- C5 counterexample: the atomic round trip of the negative amount
`-0.05` at 2 decimals is NaN (`padStart` pads zeros before the minus sign,
so the recomposed string `"0.-5"` fails to parse), not `-0.05`. -/
theorem c5_atomic_round_trip_counterexample :
    atomicRoundTrip (-(1 / 20)) 2 = none ∧
      atomicRoundTrip (-(1 / 20)) 2 ≠ some (roundToDecimals (-(1 / 20)) 2) := by
  constructor <;> decide

/-- C5 amended: for every nonnegative decimal amount below `10^21` and
every decimal count of at most 100 — the domain on which ES `toFixed`
produces fixed-notation output instead of throwing a RangeError
(`d > 100`) or falling back to exponential `ToString` (on which `new BN`
throws) — converting with `toAtomicBN` and back with `fromAtomicToNumber`
yields exactly the amount rounded (half up) to `d` decimal places. -/
theorem c5_atomic_round_trip_nonneg (x : ℚ) (hx : 0 ≤ x) (hx21 : x < 10 ^ 21) (d : ℕ)
    (hd100 : d ≤ 100) :
    atomicRoundTrip x d = some (roundToDecimals x d) := by
  have hq : (0 : ℚ) ≤ x * 10 ^ d := mul_nonneg hx (by positivity)
  have hr : 0 ≤ roundHalfUp (x * 10 ^ d) := by
    rw [roundHalfUp]
    refine Int.le_floor.mpr ?_
    push_cast
    linarith
  rw [atomicRoundTrip, toAtomicBN_nonneg x hx hx21 d hd100]
  show fromAtomicToNumber ((roundHalfUp (x * 10 ^ d)).toNat : ℤ) d = _
  rw [fromAtomicToNumber_natCast, roundToDecimals]
  have hcast : (((roundHalfUp (x * 10 ^ d)).toNat : ℕ) : ℚ) =
      ((roundHalfUp (x * 10 ^ d) : ℤ) : ℚ) := by
    exact_mod_cast Int.toNat_of_nonneg hr
  rw [hcast]

/-- Witness for C5 amended at `x = 0.25`, `d = 1`. -/
theorem c5_atomic_round_trip_nonneg_witness :
    atomicRoundTrip (1 / 4) 1 = some (roundToDecimals (1 / 4) 1) ∧
      roundToDecimals (1 / 4) 1 = 3 / 10 :=
  ⟨c5_atomic_round_trip_nonneg (1 / 4) (by norm_num) (by norm_num) 1 (by norm_num), by decide⟩

/-- C6 counterexample: the CSV header does not have 37 columns. -/
theorem c6_header_not_37_columns : headerFieldCount ≠ 37 := by decide

/-- C6 amended: the fixed CSV header has 35 columns, and every data row is
built from 35 fields, so (whenever no rendered field contains a comma) the
written row splits into exactly as many comma-separated fields as the
header. -/
theorem c6_csv_row_matches_header (r : CsvRow)
    (h : ∀ f ∈ csvRowFields r, ',' ∉ f.data) :
    (splitCharList ',' (csvLineChars r)).length = headerFieldCount ∧
      headerFieldCount = 35 := by
  have h35 : headerFieldCount = 35 := by decide
  refine ⟨?_, h35⟩
  rw [csvLineChars]
  have hcount := splitCharList_join_count ',' ((csvRowFields r).map String.data) ['\n']
    (by
      intro x hx
      obtain ⟨f, hf, rfl⟩ := List.mem_map.mp hx
      exact h f hf)
    (by decide)
    (by simp [csvRowFields])
  rw [hcount, h35]
  simp [csvRowFields]

/-- Witness for C6 amended at the all-empty row. -/
theorem c6_csv_row_matches_header_witness :
    (splitCharList ',' (csvLineChars emptyCsvRow)).length = headerFieldCount ∧
      headerFieldCount = 35 :=
  c6_csv_row_matches_header emptyCsvRow (by decide)

/-- C7: the header is written iff the CSV file is absent or empty, writes
append, and over any sequence of runs against the same file the header is
written at most once — exactly once when the file starts absent/empty and
at least one run happens, never when it starts non-empty. -/
theorem c7_csv_header_once (f : Option String) (bs : List String) :
    csvHeaderWrites f bs ≤ 1 ∧
    (csvNeedHeader f = false → csvHeaderWrites f bs = 0) ∧
    (csvNeedHeader f = true → bs ≠ [] → csvHeaderWrites f bs = 1) := by
  have hone : ∀ b bs2, csvNeedHeader f = true → csvHeaderWrites f (b :: bs2) = 1 := by
    intro b bs2 hf
    have h0 := csvHeaderWrites_of_no_header bs2 (some (csvRun f b)) (csvRun_need_header_false f b)
    simp [csvHeaderWrites, hf, h0]
  refine ⟨?_, fun h => csvHeaderWrites_of_no_header bs f h, ?_⟩
  · cases hf : csvNeedHeader f with
    | false =>
        rw [csvHeaderWrites_of_no_header bs f hf]
        norm_num
    | true =>
        cases bs with
        | nil => simp [csvHeaderWrites]
        | cons b bs2 => rw [hone b bs2 hf]
  · intro hf hbs
    cases bs with
    | nil => exact absurd rfl hbs
    | cons b bs2 => exact hone b bs2 hf

/-- Witness for C7: an absent file gets the header exactly once; a file
already holding the header gets none. -/
theorem c7_csv_header_once_witness :
    csvHeaderWrites none [emptyString] = 1 ∧
      csvHeaderWrites (some csvHeader) [emptyString] = 0 :=
  ⟨(c7_csv_header_once none [emptyString]).2.2 rfl (by simp),
    (c7_csv_header_once (some csvHeader) [emptyString]).2.1 (by decide)⟩

/-- C8: `fetchSolUsd` never propagates an error — every failure (thrown
error, non-finite mid, non-positive mid) yields the hardcoded fallback
195.0, and the result is always positive (finiteness is inherent in ℚ). -/
theorem c8_fetch_sol_usd_fallback :
    (∀ fetched, 0 < fetchSolUsd fetched) ∧
    (∀ e, fetchSolUsd (Except.error e) = 195) ∧
    fetchSolUsd (Except.ok none) = 195 ∧
    (∀ mid, mid ≤ 0 → fetchSolUsd (Except.ok (some mid)) = 195) := by
  refine ⟨?_, fun e => rfl, rfl, ?_⟩
  · intro fetched
    match fetched with
    | Except.error _ => norm_num [fetchSolUsd]
    | Except.ok none => norm_num [fetchSolUsd]
    | Except.ok (some mid) =>
        by_cases h : mid ≤ 0
        · simp [fetchSolUsd, h]
        · simp [fetchSolUsd, h]
          linarith [not_le.mp h]
  · intro mid h
    simp [fetchSolUsd, h]

/-- Witness for C8 at a negative fetched mid. -/
theorem c8_fetch_sol_usd_fallback_witness :
    fetchSolUsd (Except.ok (some (-3))) = 195 :=
  c8_fetch_sol_usd_fallback.2.2.2 (-3) (by norm_num)

/-- C9: the loop maps each size independently — splitting the size list
around any one size decomposes the run, the number of outcomes always
equals the number of sizes, and a failing quote at a size produces an
error event logged with that size while leaving every other iteration
unchanged. -/
theorem c9_loop_error_isolation (quoteAt : ℚ → Except String SizeResult)
    (pre : List ℚ) (usd : ℚ) (post : List ℚ) (e : String) :
    runLoop quoteAt (pre ++ usd :: post) =
      runLoop quoteAt pre ++ processOneSize quoteAt usd :: runLoop quoteAt post ∧
    (runLoop quoteAt (pre ++ usd :: post)).length = pre.length + 1 + post.length ∧
    (quoteAt usd = Except.error e → processOneSize quoteAt usd = LoopEvent.errorLogged usd e) := by
  refine ⟨by simp [runLoop], ?_, ?_⟩
  · simp [runLoop]
    omega
  · intro h
    simp [processOneSize, h]

/-- Witness for C9 with an always-failing quote oracle. -/
theorem c9_loop_error_isolation_witness :
    processOneSize (fun _ => Except.error quoteFailMsg) 25 =
      LoopEvent.errorLogged 25 quoteFailMsg :=
  (c9_loop_error_isolation (fun _ => Except.error quoteFailMsg) [10] 25 [50] quoteFailMsg).2.2 rfl

/-- C10: both the buy- and sell-direction bin-array requests pass
`max 2 coverage`, so any coverage at or below 2 (including zero and
negative values) still fetches 2 bin arrays. -/
theorem c10_bin_arrays_coverage (coverage : ℚ) :
    (binArraysRequested coverage).1 = max 2 coverage ∧
    (binArraysRequested coverage).2 = max 2 coverage ∧
    (coverage ≤ 2 →
      (binArraysRequested coverage).1 = 2 ∧ (binArraysRequested coverage).2 = 2) := by
  refine ⟨rfl, rfl, fun h => ?_⟩
  have hm : max 2 coverage = 2 := max_eq_left h
  exact ⟨hm, hm⟩

/-- Witness for C10 at coverage zero. -/
theorem c10_bin_arrays_coverage_witness :
    (binArraysRequested 0).1 = 2 ∧ (binArraysRequested 0).2 = 2 :=
  (c10_bin_arrays_coverage 0).2.2 (by norm_num)

/-- A fraction-digit count above 100 makes `toFixed` throw a RangeError,
so `toAtomicBN` throws. -/
theorem toAtomicBN_range_error (x : ℚ) (d : ℕ) (h : 100 < d) :
    toAtomicBN x d = none := by
  simp [toAtomicBN, toFixedChars, h]

/-- A magnitude at or above `10^21` makes `toFixed` return the exponential
`ToString` rendering, on which the `BN` constructor throws, so `toAtomicBN`
throws. -/
theorem toAtomicBN_exponential_tostring (x : ℚ) (d : ℕ) (hd : d ≤ 100)
    (h : 10 ^ 21 ≤ |x|) : toAtomicBN x d = none := by
  have hnotf : ¬ 100 < d := not_lt.2 hd
  simp [toAtomicBN, toFixedChars, hnotf, h]
